import Mathlib

/-!
Verification of the local-first registry synchronization engine of the
recettier repository: the `LocalStorageService` (src/services/localStorage.ts)
and the `IngredientsService` (src/services/ingredients.ts), embedded shallowly.

JavaScript `Record<string, T>` objects are modelled as association lists that
keep insertion order (`RecordMap`); `Date` values as natural-number
timestamps; `crypto.randomUUID()` as an explicit stream of fresh identifiers
passed to each operation; remote (Google Drive) interaction as an explicit
outcome parameter describing what the collaborator did.
-/

namespace Recettier

/-- A JavaScript object used as a string-keyed map, with insertion order. -/
structure RecordMap (α : Type) where
  entries : List (String × α)
deriving DecidableEq, Repr

namespace RecordMap

def keys {α : Type} (m : RecordMap α) : List String :=
  m.entries.map Prod.fst

/-- `obj[k]` (first matching key; JS objects have unique keys). -/
def get? {α : Type} (m : RecordMap α) (k : String) : Option α :=
  (m.entries.find? fun p => decide (p.1 = k)).map Prod.snd

/-- `k in obj` / `Set(Object.keys(obj)).has(k)`. -/
def hasKey {α : Type} (m : RecordMap α) (k : String) : Bool :=
  m.entries.any fun p => decide (p.1 = k)

/-- `obj[k] = v`: updates in place keeping position, or appends a new key. -/
def setKey {α : Type} (m : RecordMap α) (k : String) (v : α) : RecordMap α :=
  if m.hasKey k then
    ⟨m.entries.map fun p => if p.1 = k then (k, v) else p⟩
  else
    ⟨m.entries ++ [(k, v)]⟩

/-- `delete obj[k]`. -/
def erase {α : Type} (m : RecordMap α) (k : String) : RecordMap α :=
  ⟨m.entries.filter fun p => decide (p.1 ≠ k)⟩

/-- `Object.values(obj)`. -/
def values {α : Type} (m : RecordMap α) : List α :=
  m.entries.map Prod.snd

/-- `Object.keys(obj).length`. -/
def size {α : Type} (m : RecordMap α) : Nat :=
  m.entries.length

def empty {α : Type} : RecordMap α := ⟨[]⟩

/-- Every value is stored under the key equal to its `keyOf` field
(true of all maps the services build, where the key is the entity id). -/
def Coherent {α : Type} (keyOf : α → String) (m : RecordMap α) : Prop :=
  ∀ p ∈ m.entries, keyOf p.2 = p.1

instance {α : Type} (keyOf : α → String) (m : RecordMap α) :
    Decidable (Coherent keyOf m) := by
  unfold Coherent; infer_instance

end RecordMap

/-! ## Data model (src/types/recipe.ts) -/

inductive StorageLocation where
  | pantry | refrigerator | freezer | roomTemperature
deriving DecidableEq, Repr

structure StorageInfo where
  location : StorageLocation
  shelfLife : Option Nat
  storageInstructions : Option String
  freezable : Bool
deriving DecidableEq, Repr

structure MacroInfo where
  protein : Option Int
  carbs : Option Int
  fat : Option Int
  fiber : Option Int
deriving DecidableEq, Repr

structure NutritionInfo where
  caloriesPerUnit : Option Int
  servingSize : Option String
  macros : Option MacroInfo
  allergens : Option (List String)
deriving DecidableEq, Repr

structure PurchaseInfo where
  averagePrice : Option Int
  priceUnit : Option String
  preferredBrands : Option (List String)
  preferredStores : Option (List String)
  seasonalAvailability : Option (List String)
  lastPurchaseDate : Option Nat
  lastPurchasePrice : Option Int
deriving DecidableEq, Repr

structure IngredientCategory where
  id : String
  name : String
  description : Option String
  color : Option String
  icon : Option String
deriving DecidableEq, Repr

structure Ingredient where
  id : String
  name : String
  category : IngredientCategory
  defaultUnit : String
  alternativeNames : List String
  description : Option String
  storageInfo : Option StorageInfo
  nutritionInfo : Option NutritionInfo
  purchaseInfo : Option PurchaseInfo
  tags : List String
  createdAt : Nat
  updatedAt : Nat
deriving DecidableEq, Repr

structure RegistryMetadata where
  totalIngredients : Nat
  totalCategories : Nat
deriving DecidableEq, Repr

structure IngredientsRegistry where
  ingredients : RecordMap Ingredient
  categories : RecordMap IngredientCategory
  version : String
  lastUpdated : Nat
  metadata : RegistryMetadata
deriving DecidableEq, Repr

/-! ## Pending changes (src/services/localStorage.ts) -/

inductive ChangeType where
  | ingredient | category
deriving DecidableEq, Repr

inductive ChangeOp where
  | create | update | delete
deriving DecidableEq, Repr

inductive EntityData where
  | ing (i : Ingredient)
  | cat (c : IngredientCategory)
deriving DecidableEq, Repr

/-- The entity id carried by a change's snapshot. -/
def EntityData.entityId : EntityData → String
  | .ing i => i.id
  | .cat c => c.id

structure PendingChange where
  id : String
  type : ChangeType
  operation : ChangeOp
  timestamp : Nat
  data : Option EntityData
deriving DecidableEq, Repr

structure LocalData where
  ingredients : RecordMap Ingredient
  categories : RecordMap IngredientCategory
  baselineIngredients : RecordMap Ingredient
  baselineCategories : RecordMap IngredientCategory
  pendingChanges : List PendingChange
  lastLocalUpdate : Nat
  lastSyncTime : Option Nat
deriving DecidableEq, Repr

/-- The default empty record returned by `getLocalData` when nothing was
ever stored. -/
def defaultLocalData (now : Nat) : LocalData :=
  { ingredients := RecordMap.empty
    categories := RecordMap.empty
    baselineIngredients := RecordMap.empty
    baselineCategories := RecordMap.empty
    pendingChanges := []
    lastLocalUpdate := now
    lastSyncTime := none }

/-! ### The change-set calculator (`recalculatePendingChanges`)

The source runs the same two loops once for ingredients and once for
categories: a pass over the current ids emitting `create` (id not in the
baseline) or `update` (values differ under deep equality), then a pass over
the baseline ids emitting `delete` for ids no longer present.  `kindChanges`
is that loop pair for one kind; deep equality (`JSON.stringify` comparison in
the source) is structural equality of the modelled values. -/

def kindChanges {α : Type} [DecidableEq α] (cur base : RecordMap α) :
    List (ChangeOp × α) :=
  (cur.entries.filterMap fun p =>
    match base.get? p.1 with
    | some w =>
      match cur.get? p.1 with
      | some v => if v = w then none else some (ChangeOp.update, v)
      | none => none
    | none =>
      match cur.get? p.1 with
      | some v => some (ChangeOp.create, v)
      | none => none)
  ++ base.entries.filterMap fun p =>
    match cur.get? p.1 with
    | some _ => none
    | none =>
      match base.get? p.1 with
      | some w => some (ChangeOp.delete, w)
      | none => none

/-- One computed change before the fresh UUID and timestamp are attached. -/
structure PCData where
  type : ChangeType
  operation : ChangeOp
  data : EntityData
deriving DecidableEq, Repr

/-- The full recomputed change list (ingredient changes first, then category
changes, exactly as the two loop blocks run in the source). -/
def recalcData (d : LocalData) : List PCData :=
  ((kindChanges d.ingredients d.baselineIngredients).map fun c =>
    ⟨ChangeType.ingredient, c.1, EntityData.ing c.2⟩)
  ++ (kindChanges d.categories d.baselineCategories).map fun c =>
    ⟨ChangeType.category, c.1, EntityData.cat c.2⟩

/-- Attach the freshly drawn UUIDs (`uuid 0`, `uuid 1`, … in push order) and
the clock reading to the computed changes, as each loop iteration does with
`crypto.randomUUID()` and `new Date()`. -/
def mkPending : List PCData → (Nat → String) → Nat → List PendingChange
  | [], _, _ => []
  | c :: rest, uuid, now =>
    { id := uuid 0, type := c.type, operation := c.operation,
      timestamp := now, data := some c.data }
      :: mkPending rest (fun i => uuid (i + 1)) now

/-- `recalculatePendingChanges`: the pending-change list recomputed fresh
from the current and baseline maps. -/
def recalculatePendingChanges (d : LocalData) (uuid : Nat → String)
    (now : Nat) : List PendingChange :=
  mkPending (recalcData d) uuid now

/-! ## LocalStorageService mutators

Each `async` method loads the full record, mutates it in memory and writes
it back; in the single-context execution model of the app that is a pure
state transformer on `LocalData`. -/

namespace LocalStorageService

def clearPendingChanges (d : LocalData) : LocalData :=
  { d with
    pendingChanges := []
    baselineIngredients := d.ingredients
    baselineCategories := d.categories }

def updateLastSyncTime (d : LocalData) (syncTime : Nat) : LocalData :=
  { d with lastSyncTime := some syncTime }

def addCategory (d : LocalData) (category : IngredientCategory)
    (uuid : Nat → String) (now : Nat) : LocalData :=
  let d := { d with
    categories := d.categories.setKey category.id category
    lastLocalUpdate := now }
  { d with pendingChanges := recalculatePendingChanges d uuid now }

def updateCategory (d : LocalData) (category : IngredientCategory)
    (uuid : Nat → String) (now : Nat) : LocalData :=
  let d := { d with
    categories := d.categories.setKey category.id category
    lastLocalUpdate := now }
  { d with pendingChanges := recalculatePendingChanges d uuid now }

def deleteCategory (d : LocalData) (categoryId : String)
    (uuid : Nat → String) (now : Nat) : LocalData :=
  if d.categories.hasKey categoryId then
    let d := { d with
      categories := d.categories.erase categoryId
      lastLocalUpdate := now }
    { d with pendingChanges := recalculatePendingChanges d uuid now }
  else d

def addIngredient (d : LocalData) (ingredient : Ingredient)
    (uuid : Nat → String) (now : Nat) : LocalData :=
  let d := { d with
    ingredients := d.ingredients.setKey ingredient.id ingredient
    lastLocalUpdate := now }
  { d with pendingChanges := recalculatePendingChanges d uuid now }

def updateIngredient (d : LocalData) (ingredient : Ingredient)
    (uuid : Nat → String) (now : Nat) : LocalData :=
  let d := { d with
    ingredients := d.ingredients.setKey ingredient.id ingredient
    lastLocalUpdate := now }
  { d with pendingChanges := recalculatePendingChanges d uuid now }

def deleteIngredient (d : LocalData) (ingredientId : String)
    (uuid : Nat → String) (now : Nat) : LocalData :=
  if d.ingredients.hasKey ingredientId then
    let d := { d with
      ingredients := d.ingredients.erase ingredientId
      lastLocalUpdate := now }
    { d with pendingChanges := recalculatePendingChanges d uuid now }
  else d

/-- Replace both current and baseline with the registry content from the
remote document, record its `lastUpdated` as the sync time, and clear the
pending changes. -/
def loadFromRegistry (d : LocalData) (registry : IngredientsRegistry) :
    LocalData :=
  { d with
    ingredients := registry.ingredients
    categories := registry.categories
    baselineIngredients := registry.ingredients
    baselineCategories := registry.categories
    lastSyncTime := some registry.lastUpdated
    pendingChanges := [] }

end LocalStorageService

/-! ## IngredientsService (src/services/ingredients.ts) -/

/-- `a || b` for an optional string: JavaScript substitutes the fallback
when the value is absent or the empty string (falsy). -/
def jsOrElse (a : Option String) (b : String) : String :=
  match a with
  | none => b
  | some s => if s = "" then b else s

inductive ServiceError where
  | categoryNotFound
  | ingredientNotFound
deriving DecidableEq, Repr

structure CategoryCreateData where
  id : Option String
  name : String
  description : Option String
  color : Option String
  icon : Option String
deriving DecidableEq, Repr

structure CategoryUpdateData where
  id : String
  name : Option String
  description : Option String
  color : Option String
  icon : Option String
deriving DecidableEq, Repr

structure IngredientCreateData where
  id : Option String
  name : String
  categoryId : String
  defaultUnit : String
  alternativeNames : Option (List String)
  description : Option String
  storageInfo : Option StorageInfo
  nutritionInfo : Option NutritionInfo
  purchaseInfo : Option PurchaseInfo
  tags : Option (List String)
deriving DecidableEq, Repr

structure IngredientUpdateData where
  id : String
  name : Option String
  categoryId : Option String
  defaultUnit : Option String
  alternativeNames : Option (List String)
  description : Option String
  storageInfo : Option StorageInfo
  nutritionInfo : Option NutritionInfo
  purchaseInfo : Option PurchaseInfo
  tags : Option (List String)
deriving DecidableEq, Repr

namespace IngredientsService

/-- `addCategory`: build the category (generating an id when none was
supplied) and store it. -/
def addCategory (d : LocalData) (data : CategoryCreateData) (genId : String)
    (uuid : Nat → String) (now : Nat) : IngredientCategory × LocalData :=
  let category : IngredientCategory :=
    { id := jsOrElse data.id genId
      name := data.name
      description := data.description
      color := data.color
      icon := data.icon }
  (category, LocalStorageService.addCategory d category uuid now)

/-- `updateCategory`: look the category up in the stored array, fail when it
is absent, otherwise merge the supplied fields over the existing record. -/
def updateCategory (d : LocalData) (data : CategoryUpdateData)
    (uuid : Nat → String) (now : Nat) :
    Except ServiceError (IngredientCategory × LocalData) :=
  match d.categories.values.find? fun c => decide (c.id = data.id) with
  | none => Except.error ServiceError.categoryNotFound
  | some existing =>
    let updated : IngredientCategory :=
      { id := data.id
        name := data.name.getD existing.name
        description := data.description.orElse fun _ => existing.description
        color := data.color.orElse fun _ => existing.color
        icon := data.icon.orElse fun _ => existing.icon }
    Except.ok (updated, LocalStorageService.updateCategory d updated uuid now)

def deleteCategory (d : LocalData) (categoryId : String)
    (uuid : Nat → String) (now : Nat) : LocalData :=
  LocalStorageService.deleteCategory d categoryId uuid now

/-- `addIngredient`: resolve the referenced category (failing with the
category-not-found condition when it is absent), build the ingredient with
generated id and timestamps, embed the resolved category, and store it. -/
def addIngredient (d : LocalData) (data : IngredientCreateData)
    (genId : String) (uuid : Nat → String) (now : Nat) :
    Except ServiceError (Ingredient × LocalData) :=
  match d.categories.values.find? fun c => decide (c.id = data.categoryId) with
  | none => Except.error ServiceError.categoryNotFound
  | some category =>
    let ingredient : Ingredient :=
      { id := jsOrElse data.id genId
        name := data.name
        category := category
        defaultUnit := data.defaultUnit
        alternativeNames := data.alternativeNames.getD []
        description := data.description
        storageInfo := data.storageInfo
        nutritionInfo := data.nutritionInfo
        purchaseInfo := data.purchaseInfo
        tags := data.tags.getD []
        createdAt := now
        updatedAt := now }
    Except.ok (ingredient, LocalStorageService.addIngredient d ingredient uuid now)

/-- `updateIngredient`: look the ingredient up, fail when absent; when a
different (non-empty) category id is supplied, re-resolve it or fail; merge
the supplied fields, refresh `updatedAt`, and store. -/
def updateIngredient (d : LocalData) (data : IngredientUpdateData)
    (uuid : Nat → String) (now : Nat) :
    Except ServiceError (Ingredient × LocalData) :=
  match d.ingredients.values.find? fun i => decide (i.id = data.id) with
  | none => Except.error ServiceError.ingredientNotFound
  | some existing =>
    let resolved : Except ServiceError IngredientCategory :=
      match data.categoryId with
      | none => Except.ok existing.category
      | some cid =>
        if cid = "" then Except.ok existing.category
        else if cid = existing.category.id then Except.ok existing.category
        else
          match d.categories.values.find? fun c => decide (c.id = cid) with
          | none => Except.error ServiceError.categoryNotFound
          | some newCategory => Except.ok newCategory
    match resolved with
    | Except.error e => Except.error e
    | Except.ok category =>
      let updated : Ingredient :=
        { id := data.id
          name := data.name.getD existing.name
          category := category
          defaultUnit := data.defaultUnit.getD existing.defaultUnit
          alternativeNames := data.alternativeNames.getD existing.alternativeNames
          description := data.description.orElse fun _ => existing.description
          storageInfo := data.storageInfo.orElse fun _ => existing.storageInfo
          nutritionInfo := data.nutritionInfo.orElse fun _ => existing.nutritionInfo
          purchaseInfo := data.purchaseInfo.orElse fun _ => existing.purchaseInfo
          tags := data.tags.getD existing.tags
          createdAt := existing.createdAt
          updatedAt := now }
      Except.ok (updated, LocalStorageService.updateIngredient d updated uuid now)

def deleteIngredient (d : LocalData) (ingredientId : String)
    (uuid : Nat → String) (now : Nat) : LocalData :=
  LocalStorageService.deleteIngredient d ingredientId uuid now

def createDefaultRegistry (now : Nat) : IngredientsRegistry :=
  { ingredients := RecordMap.empty
    categories := RecordMap.empty
    version := "1.0.0"
    lastUpdated := now
    metadata := { totalIngredients := 0, totalCategories := 0 } }

end IngredientsService

/-! ## Remote synchronization

The Remote Document Store holds (at most) one registry document; reading it
back parses the JSON that was written, so the document is modelled as the
registry value it serializes.  What the collaborator does on a given call is
injected as an explicit outcome. -/

inductive RemoteError where
  | transientIO
  | corrupt
deriving DecidableEq, Repr

structure World where
  localData : LocalData
  remote : Option IngredientsRegistry
deriving Repr

/-- Whether the remote find/update/create sequence of one
`saveRegistryToGoogleDrive` call succeeds. -/
inductive PushOutcome where
  | ok
  | remoteFail (e : RemoteError)
deriving DecidableEq, Repr

/-- What the Remote Document Store does during one `syncFromGoogleDrive`:
the registry file is found, read and parsed; or it is absent (after which
the freshly created default is pushed, itself succeeding or failing); or
some step fails (network error while finding/reading, or unparseable
content). -/
inductive PullOutcome where
  | found (registry : IngredientsRegistry)
  | notFound (save : PushOutcome)
  | failure (e : RemoteError)
deriving Repr

/-- `saveRegistryToGoogleDrive`: overwrite the existing document or create
it; either way the remote ends up holding exactly this registry. -/
def saveRegistryToGoogleDrive (remote : Option IngredientsRegistry)
    (registry : IngredientsRegistry) (outcome : PushOutcome) :
    Except RemoteError (Option IngredientsRegistry) :=
  match outcome with
  | PushOutcome.ok => Except.ok (some registry)
  | PushOutcome.remoteFail e =>
    let _ := remote
    Except.error e

/-- `IngredientsService.saveToGoogleDrive` (push): serialize the current
maps into a registry, write it remotely, then clear the pending changes
(advancing the baseline) and record the sync time.  When the remote write
throws, the error is re-thrown and none of the local writes have happened.
Returns the post-call world together with the call's result. -/
def saveToGoogleDrive (w : World) (outcome : PushOutcome)
    (nowReg nowSync : Nat) : World × Except RemoteError Unit :=
  let d := w.localData
  let registry : IngredientsRegistry :=
    { ingredients := d.ingredients
      categories := d.categories
      version := "1.0.0"
      lastUpdated := nowReg
      metadata :=
        { totalIngredients := d.ingredients.size
          totalCategories := d.categories.size } }
  match saveRegistryToGoogleDrive w.remote registry outcome with
  | Except.error e => (w, Except.error e)
  | Except.ok remoteAfter =>
    let d := LocalStorageService.clearPendingChanges d
    let d := LocalStorageService.updateLastSyncTime d nowSync
    ({ localData := d, remote := remoteAfter }, Except.ok ())

/-- `IngredientsService.syncFromGoogleDrive` (pull).  The whole body is
wrapped in a catch-all that loads a default empty registry locally on ANY
error, so the function never propagates an error to its caller. -/
def syncFromGoogleDrive (w : World) (outcome : PullOutcome) (now : Nat) :
    World :=
  match outcome with
  | PullOutcome.found registry =>
    { w with localData := LocalStorageService.loadFromRegistry w.localData registry }
  | PullOutcome.notFound save =>
    let defaultRegistry := IngredientsService.createDefaultRegistry now
    let d := LocalStorageService.loadFromRegistry w.localData defaultRegistry
    match saveRegistryToGoogleDrive w.remote defaultRegistry save with
    | Except.ok remoteAfter => { localData := d, remote := remoteAfter }
    | Except.error _ =>
      let fallback := IngredientsService.createDefaultRegistry now
      { w with localData := LocalStorageService.loadFromRegistry d fallback }
  | PullOutcome.failure _ =>
    let fallback := IngredientsService.createDefaultRegistry now
    { w with localData := LocalStorageService.loadFromRegistry w.localData fallback }

/-! ## Reachable states

One step is one Domain Service call or one Synchronizer call, with the
nondeterministic inputs (generated ids, clock readings, remote outcomes)
carried by the action. -/

inductive Action where
  | addCategory (data : CategoryCreateData) (genId : String) (uuid : Nat → String)
  | updateCategory (data : CategoryUpdateData) (uuid : Nat → String)
  | deleteCategory (categoryId : String) (uuid : Nat → String)
  | addIngredient (data : IngredientCreateData) (genId : String) (uuid : Nat → String)
  | updateIngredient (data : IngredientUpdateData) (uuid : Nat → String)
  | deleteIngredient (ingredientId : String) (uuid : Nat → String)
  | push (outcome : PushOutcome) (nowSync : Nat)
  | pull (outcome : PullOutcome)

/-- Effect of one action on the world.  Domain Service errors propagate to
the caller before any write, leaving the state untouched. -/
def stepWorld (w : World) (a : Action) (now : Nat) : World :=
  match a with
  | Action.addCategory data genId uuid =>
    { w with localData := (IngredientsService.addCategory w.localData data genId uuid now).2 }
  | Action.updateCategory data uuid =>
    match IngredientsService.updateCategory w.localData data uuid now with
    | Except.error _ => w
    | Except.ok (_, d) => { w with localData := d }
  | Action.deleteCategory categoryId uuid =>
    { w with localData := IngredientsService.deleteCategory w.localData categoryId uuid now }
  | Action.addIngredient data genId uuid =>
    match IngredientsService.addIngredient w.localData data genId uuid now with
    | Except.error _ => w
    | Except.ok (_, d) => { w with localData := d }
  | Action.updateIngredient data uuid =>
    match IngredientsService.updateIngredient w.localData data uuid now with
    | Except.error _ => w
    | Except.ok (_, d) => { w with localData := d }
  | Action.deleteIngredient ingredientId uuid =>
    { w with localData := IngredientsService.deleteIngredient w.localData ingredientId uuid now }
  | Action.push outcome nowSync => (saveToGoogleDrive w outcome now nowSync).1
  | Action.pull outcome => syncFromGoogleDrive w outcome now

/-- A registry parsed from a JSON document: object keys are unique. -/
def RegistryWF (r : IngredientsRegistry) : Prop :=
  r.ingredients.keys.Nodup ∧ r.categories.keys.Nodup

/-- Any registry handed to `pull` comes from parsing a JSON document. -/
def ActionWF : Action → Prop
  | Action.pull (PullOutcome.found r) => RegistryWF r
  | _ => True

/-- Worlds reachable from a fresh client (empty local record, arbitrary
remote) by any sequence of Domain Service and Synchronizer calls. -/
inductive Reachable : World → Prop where
  | init (now : Nat) (remote : Option IngredientsRegistry) :
      Reachable { localData := defaultLocalData now, remote := remote }
  | step (w : World) (a : Action) (now : Nat) (hw : Reachable w)
      (ha : ActionWF a) : Reachable (stepWorld w a now)

/-! ## Spec-level definitions

`diffCreatesUpdates` and `diffDeletes` are written from the specification's
words (one create/update entry per current id, snapshot the current value, in
insertion order of current; one delete entry per baseline-only id, snapshot
the baseline value), to be compared against the source-derived
`kindChanges`. -/

def diffCreatesUpdates {α : Type} [DecidableEq α] (cur base : RecordMap α) :
    List (ChangeOp × α) :=
  cur.entries.filterMap fun p =>
    match base.get? p.1 with
    | none => some (ChangeOp.create, p.2)
    | some w => if p.2 = w then none else some (ChangeOp.update, p.2)

def diffDeletes {α : Type} (cur base : RecordMap α) : List (ChangeOp × α) :=
  base.entries.filterMap fun p =>
    if p.1 ∈ cur.keys then none else some (ChangeOp.delete, p.2)

/-- The classification the spec prescribes for a single id. -/
def classifyId {α : Type} [DecidableEq α] (cur base : RecordMap α)
    (k : String) : List (ChangeOp × α) :=
  match cur.get? k, base.get? k with
  | some v, none => [(ChangeOp.create, v)]
  | some v, some w => if v = w then [] else [(ChangeOp.update, v)]
  | none, some w => [(ChangeOp.delete, w)]
  | none, none => []

/-- The deterministic content of a stored pending change: everything except
the freshly generated entry id and timestamp. -/
def PendingChange.content (p : PendingChange) :
    ChangeType × ChangeOp × Option EntityData :=
  (p.type, p.operation, p.data)

/-- Invariant I2: every ingredient's embedded category resolves in the
current category map. -/
def RefIntegrity (d : LocalData) : Prop :=
  ∀ p ∈ d.ingredients.entries, p.2.category.id ∈ d.categories.keys

instance (d : LocalData) : Decidable (RefIntegrity d) := by
  unfold RefIntegrity; infer_instance

/-! ## Concrete data used by the witnesses and counterexamples -/

def catVeg : IngredientCategory :=
  { id := "c1", name := "Vegetables", description := none, color := none,
    icon := none }

def catVegMap : RecordMap IngredientCategory := ⟨[("c1", catVeg)]⟩

def uuidEx : Nat → String := fun i => String.append "uuid-" (toString i)

def carrotData : IngredientCreateData :=
  { id := none, name := "Carrot", categoryId := "c1", defaultUnit := "g",
    alternativeNames := none, description := none, storageInfo := none,
    nutritionInfo := none, purchaseInfo := none, tags := none }

/-- A state holding one never-synced local category (nonempty pending
changes, nonempty current maps). -/
def pullBugState : LocalData :=
  (IngredientsService.addCategory (defaultLocalData 0)
    { id := some "c1", name := "Vegetables", description := none,
      color := none, icon := none } "g" uuidEx 1).2

/-- A state whose diff against its baseline is nonempty. -/
def dirtyState : LocalData :=
  { defaultLocalData 0 with categories := catVegMap }

/-- Reachable world after: add category c1, add ingredient i1 in c1, delete
category c1 — the dangling-reference scenario. -/
def danglingW1 : World :=
  stepWorld { localData := defaultLocalData 0, remote := none }
    (Action.addCategory
      { id := some "c1", name := "Vegetables", description := none,
        color := none, icon := none } "g1" uuidEx) 1

def danglingW2 : World :=
  stepWorld danglingW1
    (Action.addIngredient
      { carrotData with id := some "i1" } "g2" uuidEx) 2

def danglingW3 : World :=
  stepWorld danglingW2 (Action.deleteCategory "c1" uuidEx) 3

/-- A clean (current = baseline) state holding one category, from which the
net-zero scenario starts. -/
def netZeroD : LocalData :=
  { defaultLocalData 0 with
    categories := catVegMap
    baselineCategories := catVegMap }

/-- The ingredient the net-zero scenario creates. -/
def netZeroIng : Ingredient :=
  { id := "gen", name := "Carrot", category := catVeg, defaultUnit := "g",
    alternativeNames := [], description := none, storageInfo := none,
    nutritionInfo := none, purchaseInfo := none, tags := [], createdAt := 6,
    updatedAt := 6 }

/-- The state after the net-zero scenario's create. -/
def netZeroD1 : LocalData :=
  { ingredients := ⟨[("gen", netZeroIng)]⟩
    categories := catVegMap
    baselineIngredients := ⟨[]⟩
    baselineCategories := catVegMap
    pendingChanges :=
      [{ id := uuidEx 0, type := ChangeType.ingredient,
         operation := ChangeOp.create, timestamp := 6,
         data := some (EntityData.ing netZeroIng) }]
    lastLocalUpdate := 6
    lastSyncTime := none }

/-- Reachable world with one freshly added category, used to witness the
diff invariant. -/
def invariantW1 : World :=
  stepWorld { localData := defaultLocalData 0, remote := none }
    (Action.addCategory
      { id := none, name := "Vegetables", description := none, color := none,
        icon := none } "c1" uuidEx) 1

/-- A state with one change of every kind: category c2 created, ingredient
i1 updated, ingredient i2 deleted, category c1 and ingredient i3 clean. -/
def classifyExState : LocalData :=
  { defaultLocalData 0 with
    ingredients :=
      ⟨[("i1", { netZeroIng with id := "i1", name := "Leek" }),
        ("i3", { netZeroIng with id := "i3" })]⟩
    baselineIngredients :=
      ⟨[("i1", { netZeroIng with id := "i1" }),
        ("i2", { netZeroIng with id := "i2" }),
        ("i3", { netZeroIng with id := "i3" })]⟩
    categories :=
      ⟨[("c1", catVeg), ("c2", { catVeg with id := "c2", name := "Fruit" })]⟩
    baselineCategories := catVegMap }

def updFrameIng : Ingredient :=
  { netZeroIng with id := "i1", category := catVeg }

/-- A state with one category and one ingredient embedding it, used for the
update-category frame witness. -/
def updFrameState : LocalData :=
  { defaultLocalData 0 with
    ingredients := ⟨[("i1", updFrameIng)]⟩
    categories := catVegMap }

def updCatData : CategoryUpdateData :=
  { id := "c1", name := some "Veggies", description := none, color := none,
    icon := none }

/-- The category and state produced by renaming c1 in `updFrameState`. -/
def updFramePair : IngredientCategory × LocalData :=
  (IngredientsService.updateCategory updFrameState updCatData uuidEx 9).toOption.getD
    (catVeg, updFrameState)

/-! ## Basic lemmas about `RecordMap` -/

/-- In a list with pairwise-distinct keys, `find?` by the key of a member
returns that member. -/
theorem findEntry_of_mem {α : Type} {l : List (String × α)} {p : String × α}
    (hnd : (l.map Prod.fst).Nodup) (h : p ∈ l) :
    l.find? (fun q => decide (q.1 = p.1)) = some p := by
  induction l with
  | nil => simp at h
  | cons q t ih =>
    simp only [List.map_cons, List.nodup_cons] at hnd
    rcases List.mem_cons.mp h with rfl | h
    · exact List.find?_cons_of_pos _ (by simp)
    · have hq1 : ¬q.1 = p.1 := fun hk =>
        hnd.1 (by rw [hk]; exact List.mem_map.mpr ⟨p, h, rfl⟩)
      rw [List.find?_cons_of_neg _ (by simpa using hq1)]
      exact ih hnd.2 h

namespace RecordMap

theorem get?_isSome_of_mem {α : Type} {m : RecordMap α} {p : String × α}
    (h : p ∈ m.entries) : (m.get? p.1).isSome := by
  unfold get?
  have h1 : (m.entries.find? fun q => decide (q.1 = p.1)).isSome := by
    rw [List.find?_isSome]
    exact ⟨p, h, by simp⟩
  rcases Option.isSome_iff_exists.mp h1 with ⟨q, hq⟩
  rw [hq]
  rfl

theorem get?_eq_of_mem {α : Type} {m : RecordMap α} {p : String × α}
    (hnd : m.keys.Nodup) (h : p ∈ m.entries) : m.get? p.1 = some p.2 := by
  have hnd' : (m.entries.map Prod.fst).Nodup := hnd
  unfold get?
  rw [findEntry_of_mem hnd' h]
  rfl

theorem hasKey_false_iff {α : Type} (m : RecordMap α) (k : String) :
    m.hasKey k = false ↔ k ∉ m.keys := by
  unfold hasKey keys
  rw [← Bool.not_eq_true, List.any_eq_true]
  constructor
  · intro hne hmem
    rcases List.mem_map.mp hmem with ⟨p, hp, hk⟩
    exact hne ⟨p, hp, by simp [hk]⟩
  · rintro hnk ⟨p, hp, hk⟩
    exact hnk (List.mem_map.mpr ⟨p, hp, of_decide_eq_true hk⟩)

theorem get?_eq_none_iff {α : Type} (m : RecordMap α) (k : String) :
    m.get? k = none ↔ k ∉ m.keys := by
  unfold get? keys
  rw [Option.map_eq_none', List.find?_eq_none]
  constructor
  · intro h hmem
    rcases List.mem_map.mp hmem with ⟨p, hp, hk⟩
    exact h p hp (by simp [hk])
  · intro h p hp hk
    exact h (List.mem_map.mpr ⟨p, hp, of_decide_eq_true hk⟩)

theorem keys_setKey_of_hasKey {α : Type} (m : RecordMap α) (k : String)
    (v : α) (h : m.hasKey k = true) : (m.setKey k v).keys = m.keys := by
  unfold setKey
  rw [if_pos h]
  unfold keys
  rw [List.map_map]
  apply List.map_congr_left
  intro p _
  by_cases hk : p.1 = k <;> simp [hk]

theorem keys_setKey_of_not_hasKey {α : Type} (m : RecordMap α) (k : String)
    (v : α) (h : ¬m.hasKey k = true) :
    (m.setKey k v).keys = m.keys ++ [k] := by
  unfold setKey
  rw [if_neg h]
  unfold keys
  simp

theorem keys_nodup_setKey {α : Type} (m : RecordMap α) (k : String) (v : α)
    (hnd : m.keys.Nodup) : (m.setKey k v).keys.Nodup := by
  by_cases h : m.hasKey k = true
  · rw [keys_setKey_of_hasKey m k v h]; exact hnd
  · rw [keys_setKey_of_not_hasKey m k v h]
    have hk : k ∉ m.keys := (hasKey_false_iff m k).mp (by simpa using h)
    simp [List.nodup_append, hnd, hk]

theorem keys_erase_sublist {α : Type} (m : RecordMap α) (k : String) :
    (m.erase k).keys.Sublist m.keys := by
  unfold erase keys
  exact List.Sublist.map Prod.fst (List.filter_sublist _)

theorem keys_nodup_erase {α : Type} (m : RecordMap α) (k : String)
    (hnd : m.keys.Nodup) : (m.erase k).keys.Nodup :=
  (keys_erase_sublist m k).nodup hnd

theorem erase_setKey_of_not_mem {α : Type} (m : RecordMap α) (k : String)
    (v : α) (h : k ∉ m.keys) : (m.setKey k v).erase k = m := by
  have hk : ¬m.hasKey k = true := by
    rw [Bool.not_eq_true, hasKey_false_iff]; exact h
  unfold setKey erase
  rw [if_neg hk]
  have h2 : (m.entries ++ [(k, v)]).filter (fun p => decide (p.1 ≠ k)) =
      m.entries := by
    rw [List.filter_append]
    have h1 : m.entries.filter (fun p => decide (p.1 ≠ k)) = m.entries := by
      apply List.filter_eq_self.mpr
      intro p hp
      apply decide_eq_true
      intro hpk
      exact h (List.mem_map.mpr ⟨p, hp, hpk⟩)
    have h3 : [(k, v)].filter (fun p => decide (p.1 ≠ k)) = [] := by simp
    rw [h1, h3, List.append_nil]
  rw [h2]

end RecordMap

/-! ## Basic lemmas about the change-set calculator -/

/-- Diffing a map against itself yields no changes. -/
theorem kindChanges_self {α : Type} [DecidableEq α] (m : RecordMap α) :
    kindChanges m m = [] := by
  unfold kindChanges
  rw [List.append_eq_nil]
  constructor <;>
  · rw [List.filterMap_eq_nil_iff]
    intro p hp
    have hs := RecordMap.get?_isSome_of_mem hp
    rcases Option.isSome_iff_exists.mp hs with ⟨v, hv⟩
    simp [hv]

/-- Every emitted change concerns a key of one of the two maps; in
particular an empty diff means every current key is also a baseline key. -/
theorem kindChanges_nil_keys_subset {α : Type} [DecidableEq α]
    {cur base : RecordMap α} (h : kindChanges cur base = []) :
    ∀ k ∈ cur.keys, k ∈ base.keys := by
  intro k hk
  by_contra hnk
  rcases List.mem_map.mp hk with ⟨p, hp, hpk⟩
  have hbase : base.get? p.1 = none := by
    rw [RecordMap.get?_eq_none_iff]
    rw [hpk]; exact hnk
  have hcur := RecordMap.get?_isSome_of_mem hp
  rcases Option.isSome_iff_exists.mp hcur with ⟨v, hv⟩
  have hmem : (ChangeOp.create, v) ∈ kindChanges cur base := by
    unfold kindChanges
    apply List.mem_append_left
    exact List.mem_filterMap.mpr ⟨p, hp, by simp [hbase, hv]⟩
  rw [h] at hmem
  simp at hmem

theorem mkPending_nil (uuid : Nat → String) (now : Nat) :
    mkPending [] uuid now = [] := rfl

theorem mkPending_eq_nil_iff (l : List PCData) (uuid : Nat → String)
    (now : Nat) : mkPending l uuid now = [] ↔ l = [] := by
  cases l <;> simp [mkPending]

/-- `recalcData` reads only the four entity maps. -/
theorem recalcData_ignores_pending (d : LocalData) (l : List PendingChange)
    (t : Nat) :
    recalcData { d with pendingChanges := l, lastLocalUpdate := t } =
      recalcData d := rfl

theorem RecordMap.mem_keys_iff_isSome_get? {α : Type} (m : RecordMap α)
    (k : String) : k ∈ m.keys ↔ (m.get? k).isSome := by
  rw [← Option.ne_none_iff_isSome]
  constructor
  · intro h hn
    exact (RecordMap.get?_eq_none_iff m k).mp hn h
  · intro h
    by_contra hn
    exact h ((RecordMap.get?_eq_none_iff m k).mpr hn)

theorem recalcData_congr (d d' : LocalData)
    (h1 : d.ingredients = d'.ingredients) (h2 : d.categories = d'.categories)
    (h3 : d.baselineIngredients = d'.baselineIngredients)
    (h4 : d.baselineCategories = d'.baselineCategories) :
    recalcData d = recalcData d' := by
  unfold recalcData
  rw [h1, h2, h3, h4]

/-- A state whose baseline maps coincide with its current maps has an empty
recomputed change list. -/
theorem recalc_eq_nil_of_baseline_eq (d : LocalData)
    (h1 : d.baselineIngredients = d.ingredients)
    (h2 : d.baselineCategories = d.categories) (uuid : Nat → String)
    (now : Nat) : recalculatePendingChanges d uuid now = [] := by
  unfold recalculatePendingChanges recalcData
  rw [h1, h2, kindChanges_self, kindChanges_self]
  rfl

theorem mkPending_map_content (l : List PCData) (uuid : Nat → String)
    (now : Nat) :
    (mkPending l uuid now).map PendingChange.content =
      l.map fun c => (c.type, c.operation, some c.data) := by
  induction l generalizing uuid with
  | nil => rfl
  | cons c rest ih => simp [mkPending, PendingChange.content, ih]

/-- The source loops agree pointwise with the spec-level diff: the
create/update pass followed by the delete pass (requires the JS-object
well-formedness that keys are unique). -/
theorem kindChanges_eq_diff {α : Type} [DecidableEq α]
    (cur base : RecordMap α) (hndc : cur.keys.Nodup)
    (hndb : base.keys.Nodup) :
    kindChanges cur base = diffCreatesUpdates cur base ++ diffDeletes cur base := by
  unfold kindChanges diffCreatesUpdates diffDeletes
  congr 1
  · apply List.filterMap_congr
    intro p hp
    rw [RecordMap.get?_eq_of_mem hndc hp]
    cases base.get? p.1 <;> rfl
  · apply List.filterMap_congr
    intro p hp
    rw [RecordMap.get?_eq_of_mem hndb hp]
    by_cases hmem : p.1 ∈ cur.keys
    · rcases Option.isSome_iff_exists.mp
        ((RecordMap.mem_keys_iff_isSome_get? cur p.1).mp hmem) with ⟨v, hv⟩
      rw [hv, if_pos hmem]
    · rw [(RecordMap.get?_eq_none_iff cur p.1).mpr hmem, if_neg hmem]

/-- No change emitted by the create/update pass over `l` carries an entity
key outside the keys of `l`. -/
theorem diffCU_filter_not_mem {α : Type} [DecidableEq α] (keyOf : α → String)
    (l : List (String × α)) (base : RecordMap α)
    (hcoh : ∀ p ∈ l, keyOf p.2 = p.1) (k : String)
    (hk : k ∉ l.map Prod.fst) :
    (l.filterMap fun p =>
      match base.get? p.1 with
      | none => some (ChangeOp.create, p.2)
      | some w => if p.2 = w then none
        else some (ChangeOp.update, p.2)).filter
      (fun c => decide (keyOf c.2 = k)) = [] := by
  rw [List.filter_eq_nil_iff]
  intro c hc
  rcases List.mem_filterMap.mp hc with ⟨p, hp, hfp⟩
  have hsnap : c.2 = p.2 := by
    split at hfp
    · cases hfp; rfl
    · split at hfp
      · cases hfp
      · cases hfp; rfl
  have hkey : keyOf c.2 = p.1 := by rw [hsnap]; exact hcoh p hp
  simp only [decide_eq_true_eq, hkey]
  intro hpk
  exact hk (by rw [← hpk]; exact List.mem_map.mpr ⟨p, hp, rfl⟩)

/-- Restricting the create/update pass to one entity key yields exactly the
spec classification of that id against the baseline. -/
theorem diffCU_filter_key {α : Type} [DecidableEq α] (keyOf : α → String)
    (base : RecordMap α) (k : String) (l : List (String × α)) :
    (l.map Prod.fst).Nodup → (∀ p ∈ l, keyOf p.2 = p.1) →
    (l.filterMap fun p =>
      match base.get? p.1 with
      | none => some (ChangeOp.create, p.2)
      | some w => if p.2 = w then none
        else some (ChangeOp.update, p.2)).filter
      (fun c => decide (keyOf c.2 = k)) =
    match (RecordMap.mk l).get? k with
    | none => []
    | some v =>
      match base.get? k with
      | none => [(ChangeOp.create, v)]
      | some w => if v = w then [] else [(ChangeOp.update, v)] := by
  induction l with
  | nil =>
    intro _ _
    simp [RecordMap.get?]
  | cons p t ih =>
    intro hnd hcoh
    simp only [List.map_cons, List.nodup_cons] at hnd
    rw [List.filterMap_cons]
    by_cases hpk : p.1 = k
    · subst hpk
      have hget : (RecordMap.mk (p :: t)).get? p.1 = some p.2 := by
        unfold RecordMap.get?
        rw [List.find?_cons_of_pos _ (by simp)]
        rfl
      rw [hget]
      have htail := diffCU_filter_not_mem keyOf t base
        (fun q hq => hcoh q (List.mem_cons_of_mem p hq)) p.1 hnd.1
      have hhead : keyOf p.2 = p.1 := hcoh p (List.mem_cons_self p t)
      rcases hbase : base.get? p.1 with _ | w
      · dsimp only
        rw [List.filter_cons, if_pos (by simp [hhead]), htail]
      · dsimp only
        by_cases hw : p.2 = w
        · rw [if_pos hw]
          dsimp only
          rw [htail, if_pos hw]
        · rw [if_neg hw]
          dsimp only
          rw [List.filter_cons, if_pos (by simp [hhead]), htail, if_neg hw]
    · have hget : (RecordMap.mk (p :: t)).get? k = (RecordMap.mk t).get? k := by
        unfold RecordMap.get?
        rw [List.find?_cons_of_neg _ (by simpa using hpk)]
      rw [hget]
      have hhead : keyOf p.2 = p.1 := hcoh p (List.mem_cons_self p t)
      have hrec := ih hnd.2 fun q hq => hcoh q (List.mem_cons_of_mem p hq)
      rcases hbase : base.get? p.1 with _ | w
      · dsimp only
        rw [List.filter_cons, if_neg (by simp [hhead, hpk]), hrec]
      · dsimp only
        by_cases hw : p.2 = w
        · rw [if_pos hw]
          dsimp only
          rw [hrec]
        · rw [if_neg hw]
          dsimp only
          rw [List.filter_cons, if_neg (by simp [hhead, hpk]), hrec]

/-- Restricting the delete pass to one entity key yields exactly the spec
classification of that id. -/
theorem diffDel_filter_key {α : Type} (keyOf : α → String)
    (cur : RecordMap α) (k : String) (l : List (String × α)) :
    (l.map Prod.fst).Nodup → (∀ p ∈ l, keyOf p.2 = p.1) →
    (l.filterMap fun p =>
      if p.1 ∈ cur.keys then none
      else some (ChangeOp.delete, p.2)).filter
      (fun c => decide (keyOf c.2 = k)) =
    match (RecordMap.mk l).get? k with
    | none => []
    | some w => if k ∈ cur.keys then [] else [(ChangeOp.delete, w)] := by
  induction l with
  | nil =>
    intro _ _
    simp [RecordMap.get?]
  | cons p t ih =>
    intro hnd hcoh
    simp only [List.map_cons, List.nodup_cons] at hnd
    rw [List.filterMap_cons]
    have hhead : keyOf p.2 = p.1 := hcoh p (List.mem_cons_self p t)
    have hrec := ih hnd.2 fun q hq => hcoh q (List.mem_cons_of_mem p hq)
    by_cases hpk : p.1 = k
    · subst hpk
      have hget : (RecordMap.mk (p :: t)).get? p.1 = some p.2 := by
        unfold RecordMap.get?
        rw [List.find?_cons_of_pos _ (by simp)]
        rfl
      rw [hget]
      have htail : (t.filterMap fun q =>
          if q.1 ∈ cur.keys then none
          else some (ChangeOp.delete, q.2)).filter
          (fun c => decide (keyOf c.2 = p.1)) = [] := by
        rw [List.filter_eq_nil_iff]
        intro c hc
        rcases List.mem_filterMap.mp hc with ⟨q, hq, hfq⟩
        have hsnap : c.2 = q.2 := by
          split at hfq
          · cases hfq
          · cases hfq; rfl
        have hkey : keyOf c.2 = q.1 := by
          rw [hsnap]; exact hcoh q (List.mem_cons_of_mem p hq)
        simp only [decide_eq_true_eq, hkey]
        intro hqk
        exact hnd.1 (by rw [← hqk]; exact List.mem_map.mpr ⟨q, hq, rfl⟩)
      by_cases hmem : p.1 ∈ cur.keys
      · rw [if_pos hmem]
        dsimp only
        rw [htail, if_pos hmem]
      · rw [if_neg hmem]
        dsimp only
        rw [List.filter_cons, if_pos (by simp [hhead]), htail, if_neg hmem]
    · have hget : (RecordMap.mk (p :: t)).get? k = (RecordMap.mk t).get? k := by
        unfold RecordMap.get?
        rw [List.find?_cons_of_neg _ (by simpa using hpk)]
      rw [hget]
      by_cases hmem : p.1 ∈ cur.keys
      · rw [if_pos hmem]
        dsimp only
        rw [hrec]
      · rw [if_neg hmem]
        dsimp only
        rw [List.filter_cons, if_neg (by simp [hhead, hpk]), hrec]

/-- The per-id reading of the calculator: filtering the computed change list
of one kind down to one entity id gives exactly the spec's classification of
that id. -/
theorem kindChanges_filter_key {α : Type} [DecidableEq α] (keyOf : α → String)
    (cur base : RecordMap α) (hndc : cur.keys.Nodup) (hndb : base.keys.Nodup)
    (hcohc : RecordMap.Coherent keyOf cur)
    (hcohb : RecordMap.Coherent keyOf base) (k : String) :
    (kindChanges cur base).filter (fun c => decide (keyOf c.2 = k)) =
      classifyId cur base k := by
  rw [kindChanges_eq_diff cur base hndc hndb, List.filter_append]
  unfold diffCreatesUpdates diffDeletes
  rw [diffCU_filter_key keyOf base k cur.entries hndc hcohc,
    diffDel_filter_key keyOf cur k base.entries hndb hcohb]
  unfold classifyId
  rcases hc : cur.get? k with _ | v <;> rcases hb : base.get? k with _ | w
  · rfl
  · have hmem : k ∉ cur.keys := (RecordMap.get?_eq_none_iff cur k).mp hc
    dsimp only
    rw [if_neg hmem]
    rfl
  · rfl
  · have hmem : k ∈ cur.keys := by
      rw [RecordMap.mem_keys_iff_isSome_get?, hc]
      rfl
    dsimp only
    rw [if_pos hmem, List.append_nil]


theorem RecordMap.hasKey_true_iff {α : Type} (m : RecordMap α) (k : String) :
    m.hasKey k = true ↔ k ∈ m.keys := by
  unfold RecordMap.hasKey RecordMap.keys
  rw [List.any_eq_true]
  constructor
  · rintro ⟨p, hp, hk⟩
    exact List.mem_map.mpr ⟨p, hp, of_decide_eq_true hk⟩
  · intro hmem
    rcases List.mem_map.mp hmem with ⟨p, hp, hk⟩
    exact ⟨p, hp, by simp [hk]⟩

theorem RecordMap.mem_keys_setKey_self {α : Type} (m : RecordMap α)
    (k : String) (v : α) : k ∈ (m.setKey k v).keys := by
  by_cases h : m.hasKey k = true
  · rw [RecordMap.keys_setKey_of_hasKey m k v h]
    exact (RecordMap.hasKey_true_iff m k).mp h
  · rw [RecordMap.keys_setKey_of_not_hasKey m k v h]
    simp

/-- Looking a value up by its key field over `Object.values` fails exactly
when the key is absent (for maps keyed by that field). -/
theorem find_value_none_iff {α : Type} (keyOf : α → String) (m : RecordMap α)
    (hcoh : RecordMap.Coherent keyOf m) (k : String) :
    (m.values.find? fun v => decide (keyOf v = k)) = none ↔ k ∉ m.keys := by
  rw [List.find?_eq_none]
  constructor
  · intro h hmem
    rcases List.mem_map.mp hmem with ⟨p, hp, hpk⟩
    exact h p.2 (List.mem_map.mpr ⟨p, hp, rfl⟩) (by simp [hcoh p hp, hpk])
  · intro h v hv hk
    rcases List.mem_map.mp hv with ⟨p, hp, hpv⟩
    have hkp : k = p.1 := by
      rw [← of_decide_eq_true hk, ← hpv, hcoh p hp]
    exact h (by rw [hkp]; exact List.mem_map.mpr ⟨p, hp, rfl⟩)

/-- A successful lookup by key field returns a value carrying that key, and
the key is present in the map. -/
theorem find_value_some {α : Type} (keyOf : α → String) (m : RecordMap α)
    (hcoh : RecordMap.Coherent keyOf m) (k : String) (v : α)
    (h : (m.values.find? fun x => decide (keyOf x = k)) = some v) :
    keyOf v = k ∧ k ∈ m.keys := by
  have hv := List.mem_of_find?_eq_some h
  have hkey : keyOf v = k := by simpa using List.find?_some h
  rcases List.mem_map.mp hv with ⟨p, hp, hpv⟩
  refine ⟨hkey, ?_⟩
  rw [← hkey, ← hpv, hcoh p hp]
  exact List.mem_map.mpr ⟨p, hp, rfl⟩


/-- C4: if push (`saveToGoogleDrive`) succeeds, the remote document holds the
serialized current maps (every current entry included), the baseline maps
become copies of the current maps, `pendingChanges` is cleared, and
`lastSyncTime` records the push time. -/
theorem saveToGoogleDrive_success_spec (w : World) (nowReg nowSync : Nat) :
    (saveToGoogleDrive w PushOutcome.ok nowReg nowSync).2 = Except.ok () ∧
    (∃ registry : IngredientsRegistry,
      (saveToGoogleDrive w PushOutcome.ok nowReg nowSync).1.remote =
        some registry ∧
      registry.ingredients = w.localData.ingredients ∧
      registry.categories = w.localData.categories ∧
      (∀ p ∈ w.localData.ingredients.entries, p ∈ registry.ingredients.entries) ∧
      registry.lastUpdated = nowReg) ∧
    (saveToGoogleDrive w PushOutcome.ok nowReg nowSync).1.localData.ingredients =
      w.localData.ingredients ∧
    (saveToGoogleDrive w PushOutcome.ok nowReg nowSync).1.localData.categories =
      w.localData.categories ∧
    (saveToGoogleDrive w PushOutcome.ok nowReg nowSync).1.localData.baselineIngredients =
      w.localData.ingredients ∧
    (saveToGoogleDrive w PushOutcome.ok nowReg nowSync).1.localData.baselineCategories =
      w.localData.categories ∧
    (saveToGoogleDrive w PushOutcome.ok nowReg nowSync).1.localData.pendingChanges = [] ∧
    (saveToGoogleDrive w PushOutcome.ok nowReg nowSync).1.localData.lastSyncTime =
      some nowSync :=
  ⟨rfl, ⟨_, rfl, rfl, rfl, fun _ hp => hp, rfl⟩, rfl, rfl, rfl, rfl, rfl, rfl⟩

/-- C5: if push fails at the remote write, the error is re-thrown to the
caller and the whole world — current maps, baseline maps, pending changes,
sync time, and the remote document — is exactly as before the call. -/
theorem saveToGoogleDrive_failure_spec (w : World) (e : RemoteError)
    (nowReg nowSync : Nat) :
    saveToGoogleDrive w (PushOutcome.remoteFail e) nowReg nowSync =
      (w, Except.error e) := rfl

/-- C2 (code bug): a pull hitting any remote failure — transient I/O or a
corrupt document — does not propagate the error; instead the catch-all
replaces the current maps, baseline maps and pending changes with the empty
default, discarding the unsynced local edits present in `pullBugState`. -/
theorem syncFromGoogleDrive_swallows_pull_error :
    pullBugState.pendingChanges ≠ [] ∧
    pullBugState.categories.entries ≠ [] ∧
    ∀ e : RemoteError,
      (syncFromGoogleDrive { localData := pullBugState, remote := none }
        (PullOutcome.failure e) 2).localData.categories.entries = [] ∧
      (syncFromGoogleDrive { localData := pullBugState, remote := none }
        (PullOutcome.failure e) 2).localData.ingredients.entries = [] ∧
      (syncFromGoogleDrive { localData := pullBugState, remote := none }
        (PullOutcome.failure e) 2).localData.pendingChanges = [] :=
  ⟨by decide, by decide, fun _ => ⟨rfl, rfl, rfl⟩⟩

/-- C9 (counterexample): two invocations of the calculator on the same maps
are not literally identical, because each call attaches the fresh UUIDs it
draws; with the draws the two calls actually make, the entry ids differ. -/
theorem recompute_not_literally_idempotent :
    recalculatePendingChanges dirtyState
        (fun i => String.append "1-" (toString i)) 10 ≠
      recalculatePendingChanges dirtyState
        (fun i => String.append "2-" (toString i)) 10 := by
  decide

/-- C9 (amended): recomputation is idempotent up to the generated entry ids
and timestamps — two calls with no intervening mutation agree entry for
entry in kind, operation, and snapshot. -/
theorem recompute_idempotent_content (d : LocalData)
    (uuid1 uuid2 : Nat → String) (now1 now2 : Nat) :
    (recalculatePendingChanges d uuid1 now1).map PendingChange.content =
      (recalculatePendingChanges d uuid2 now2).map PendingChange.content := by
  unfold recalculatePendingChanges
  rw [mkPending_map_content, mkPending_map_content]

/-- C10: a successful `updateCategory` touches only the current category map
(plus the recomputed pending changes and `lastLocalUpdate`): the ingredient
map, both baselines and the sync time are untouched, so every ingredient
keeps its old denormalized category copy. -/
theorem updateCategory_frame (d : LocalData) (data : CategoryUpdateData)
    (uuid : Nat → String) (now : Nat) (category : IngredientCategory)
    (d2 : LocalData)
    (h : IngredientsService.updateCategory d data uuid now =
      Except.ok (category, d2)) :
    d2.ingredients = d.ingredients ∧
    d2.baselineIngredients = d.baselineIngredients ∧
    d2.baselineCategories = d.baselineCategories ∧
    d2.lastSyncTime = d.lastSyncTime ∧
    ∀ k, (d2.ingredients.get? k).map Ingredient.category =
      (d.ingredients.get? k).map Ingredient.category := by
  unfold IngredientsService.updateCategory at h
  split at h
  · cases h
  · rw [Except.ok.injEq, Prod.mk.injEq] at h
    obtain ⟨hcat, hd⟩ := h
    subst hd
    exact ⟨rfl, rfl, rfl, rfl, fun _ => rfl⟩

/-- Witness for C10 at a concrete state: renaming category c1 leaves the
ingredient map (and the ingredient i1 embedded category) untouched. -/
theorem updateCategory_frame_witness :
    updFramePair.2.ingredients = updFrameState.ingredients ∧
    (updFramePair.2.ingredients.get? "i1").map Ingredient.category =
      (updFrameState.ingredients.get? "i1").map Ingredient.category :=
  ⟨(updateCategory_frame updFrameState updCatData uuidEx 9 updFramePair.1
      updFramePair.2 (by rfl)).1,
   (updateCategory_frame updFrameState updCatData uuidEx 9 updFramePair.1
      updFramePair.2 (by rfl)).2.2.2.2 "i1"⟩


/-- C6: `addIngredient` fails (with the category-not-found condition) exactly
when `data.categoryId` is absent from the current category map; on failure
the whole state is left unchanged, and on success the returned ingredient
has the generated id when none was supplied, carries the call timestamps,
embeds the resolved category (so its `category.id` equals
`data.categoryId`), and is written into the current ingredient map. -/
theorem addIngredient_spec (d : LocalData) (data : IngredientCreateData)
    (genId : String) (uuid : Nat → String) (now : Nat)
    (hcoh : RecordMap.Coherent IngredientCategory.id d.categories) :
    ((∃ e, IngredientsService.addIngredient d data genId uuid now =
        Except.error e) ↔ data.categoryId ∉ d.categories.keys) ∧
    (∀ e, IngredientsService.addIngredient d data genId uuid now =
        Except.error e →
      e = ServiceError.categoryNotFound ∧
      ∀ (r : Option IngredientsRegistry) (t : Nat),
        stepWorld { localData := d, remote := r }
          (Action.addIngredient data genId uuid) t =
        { localData := d, remote := r }) ∧
    ∀ i d2, IngredientsService.addIngredient d data genId uuid now =
        Except.ok (i, d2) →
      (data.id = none → i.id = genId) ∧
      i.createdAt = now ∧ i.updatedAt = now ∧
      i.category.id = data.categoryId ∧
      d2.ingredients = d.ingredients.setKey i.id i ∧
      d2.categories = d.categories := by
  refine ⟨⟨?_, ?_⟩, ?_, ?_⟩
  · rintro ⟨e, he⟩
    unfold IngredientsService.addIngredient at he
    rcases hfind : d.categories.values.find?
        (fun c => decide (c.id = data.categoryId)) with _ | category
    · exact (find_value_none_iff IngredientCategory.id d.categories hcoh
        data.categoryId).mp hfind
    · rw [hfind] at he
      simp at he
  · intro hno
    refine ⟨ServiceError.categoryNotFound, ?_⟩
    unfold IngredientsService.addIngredient
    rcases hfind : d.categories.values.find?
        (fun c => decide (c.id = data.categoryId)) with _ | category
    · rw [hfind]
    · exact absurd (find_value_some IngredientCategory.id d.categories hcoh
        data.categoryId category hfind).2 hno
  · intro e he
    unfold IngredientsService.addIngredient at he
    rcases hfind : d.categories.values.find?
        (fun c => decide (c.id = data.categoryId)) with _ | category
    · rw [hfind] at he
      refine ⟨by cases he; rfl, fun r t => ?_⟩
      simp only [stepWorld]
      unfold IngredientsService.addIngredient
      rw [hfind]
    · rw [hfind] at he
      simp at he
  · intro i d2 he
    unfold IngredientsService.addIngredient at he
    rcases hfind : d.categories.values.find?
        (fun c => decide (c.id = data.categoryId)) with _ | category
    · rw [hfind] at he
      cases he
    · rw [hfind] at he
      dsimp only at he
      rw [Except.ok.injEq, Prod.mk.injEq] at he
      obtain ⟨hi, hd⟩ := he
      subst hd
      subst hi
      have hcat := find_value_some IngredientCategory.id d.categories hcoh
        data.categoryId category hfind
      exact ⟨fun hid => by rw [hid]; rfl, rfl, rfl, hcat.1, rfl, rfl⟩

/-- Witness for C6: in a state with only category c1, creating a Carrot in
c1 succeeds with generated id, timestamps, the embedded c1 category, and the
write into the ingredient map; the failure-iff direction holds as well. -/
theorem addIngredient_spec_witness :
    ((∃ e, IngredientsService.addIngredient netZeroD carrotData "gen" uuidEx 6 =
        Except.error e) ↔ carrotData.categoryId ∉ netZeroD.categories.keys) ∧
    ((carrotData.id = none → netZeroIng.id = "gen") ∧
      netZeroIng.createdAt = 6 ∧ netZeroIng.updatedAt = 6 ∧
      netZeroIng.category.id = carrotData.categoryId ∧
      netZeroD1.ingredients = netZeroD.ingredients.setKey netZeroIng.id netZeroIng ∧
      netZeroD1.categories = netZeroD.categories) :=
  ⟨(addIngredient_spec netZeroD carrotData "gen" uuidEx 6 (by decide)).1,
   (addIngredient_spec netZeroD carrotData "gen" uuidEx 6 (by decide)).2.2
     netZeroIng netZeroD1 (by rfl)⟩

/-- C7 (counterexample): invariant I2 is not preserved by every operation —
after reachably adding category c1, adding ingredient i1 referencing it,
then deleting c1, ingredient i1 still embeds category id c1, which no
longer resolves in the current category map. -/
theorem referential_integrity_not_preserved :
    Reachable danglingW3 ∧ ¬RefIntegrity danglingW3.localData := by
  constructor
  · exact Reachable.step danglingW2 (Action.deleteCategory "c1" uuidEx) 3
      (Reachable.step danglingW1
        (Action.addIngredient { carrotData with id := some "i1" } "g2" uuidEx) 2
        (Reachable.step { localData := defaultLocalData 0, remote := none }
          (Action.addCategory
            { id := some "c1", name := "Vegetables", description := none,
              color := none, icon := none } "g1" uuidEx) 1
          (Reachable.init 0 none) trivial)
        trivial)
      trivial
  · decide

/-- C7 (amended): referential integrity is enforced at call time by
ingredient creation — a successful `addIngredient` embeds a category whose
id is present in the (unchanged) current category map — but `deleteCategory`
does not cascade, so later deletion can leave the reference dangling. -/
theorem addIngredient_enforces_integrity (d : LocalData)
    (data : IngredientCreateData) (genId : String) (uuid : Nat → String)
    (now : Nat) (i : Ingredient) (d2 : LocalData)
    (hcoh : RecordMap.Coherent IngredientCategory.id d.categories)
    (hok : IngredientsService.addIngredient d data genId uuid now =
      Except.ok (i, d2)) :
    i.category.id ∈ d2.categories.keys ∧ d2.categories = d.categories := by
  unfold IngredientsService.addIngredient at hok
  split at hok
  · cases hok
  · rename_i category hfind
    rw [Except.ok.injEq, Prod.mk.injEq] at hok
    obtain ⟨hi, hd⟩ := hok
    subst hd
    have hsome := find_value_some IngredientCategory.id d.categories hcoh
      data.categoryId category hfind
    constructor
    · show i.category.id ∈ d.categories.keys
      rw [← hi]
      show category.id ∈ d.categories.keys
      rw [hsome.1]
      exact hsome.2
    · rfl

/-- Witness for the amended C7: the concrete Carrot creation resolves c1 in
the current category map. -/
theorem addIngredient_enforces_integrity_witness :
    netZeroIng.category.id ∈ netZeroD1.categories.keys ∧
    netZeroD1.categories = netZeroD.categories :=
  addIngredient_enforces_integrity netZeroD carrotData "gen" uuidEx 6
    netZeroIng netZeroD1 (by decide) (by rfl)

/-- C8: starting from a state whose recomputed diff is empty, creating an
ingredient whose id is absent from the baseline and then deleting it again
(no sync in between) leaves an empty pending-change list. -/
theorem create_then_delete_net_zero (d : LocalData)
    (data : IngredientCreateData) (genId : String)
    (uuid1 uuid2 : Nat → String) (now1 now2 : Nat) (i : Ingredient)
    (d1 : LocalData) (hclean : recalcData d = [])
    (hnew : jsOrElse data.id genId ∉ d.baselineIngredients.keys)
    (hok : IngredientsService.addIngredient d data genId uuid1 now1 =
      Except.ok (i, d1)) :
    (IngredientsService.deleteIngredient d1 i.id uuid2 now2).pendingChanges =
      [] := by
  unfold IngredientsService.addIngredient at hok
  split at hok
  · cases hok
  · rw [Except.ok.injEq, Prod.mk.injEq] at hok
    obtain ⟨hi, hd⟩ := hok
    subst hd
    subst hi
    have hings : kindChanges d.ingredients d.baselineIngredients = [] := by
      unfold recalcData at hclean
      exact List.map_eq_nil_iff.mp (List.append_eq_nil.mp hclean).1
    have hnotcur : jsOrElse data.id genId ∉ d.ingredients.keys := fun hmem =>
      hnew (kindChanges_nil_keys_subset hings _ hmem)
    unfold IngredientsService.deleteIngredient
      LocalStorageService.deleteIngredient
    rw [if_pos ?hk]
    case hk =>
      apply (RecordMap.hasKey_true_iff _ _).mpr
      exact RecordMap.mem_keys_setKey_self _ _ _
    show recalculatePendingChanges _ uuid2 now2 = []
    unfold recalculatePendingChanges
    rw [mkPending_eq_nil_iff]
    refine Eq.trans (recalcData_congr _ d ?_ ?_ ?_ ?_) hclean
    · exact RecordMap.erase_setKey_of_not_mem d.ingredients _ _ hnotcur
    · rfl
    · rfl
    · rfl

/-- Witness for C8: create then delete the Carrot in a clean one-category
state — no pending changes remain. -/
theorem create_then_delete_net_zero_witness :
    (IngredientsService.deleteIngredient netZeroD1 netZeroIng.id uuidEx 7).pendingChanges
      = [] :=
  create_then_delete_net_zero netZeroD carrotData "gen" uuidEx uuidEx 6 7
    netZeroIng netZeroD1 (by decide) (by decide) (by rfl)


/-- C1 (Invariant I1): in every reachable state — hence immediately after
every mutating Domain Service call and after every successful push or pull —
the stored `pendingChanges` list is exactly the calculator applied fresh to
the current and baseline maps of that moment (with the UUID draws and clock
reading of the write that produced it). -/
theorem pendingChanges_always_recomputed (w : World) (h : Reachable w) :
    ∃ uuid now, w.localData.pendingChanges =
      recalculatePendingChanges w.localData uuid now := by
  induction h with
  | init now r => exact ⟨uuidEx, 0, rfl⟩
  | step w a now hw ha ih =>
    cases a with
    | addCategory data genId uuid => exact ⟨uuid, now, rfl⟩
    | updateCategory data uuid =>
      rcases hres : IngredientsService.updateCategory w.localData data uuid now
          with e | pair
      · simpa [stepWorld, hres] using ih
      · refine ⟨uuid, now, ?_⟩
        simp only [stepWorld, hres]
        unfold IngredientsService.updateCategory at hres
        split at hres
        · cases hres
        · rw [Except.ok.injEq] at hres
          obtain ⟨c2, d2⟩ := pair
          rw [Prod.mk.injEq] at hres
          obtain ⟨hc, hd⟩ := hres
          subst hd
          rfl
    | deleteCategory categoryId uuid =>
      by_cases hk : w.localData.categories.hasKey categoryId
      · refine ⟨uuid, now, ?_⟩
        simp only [stepWorld, IngredientsService.deleteCategory,
          LocalStorageService.deleteCategory, if_pos hk]
        rfl
      · simpa [stepWorld, IngredientsService.deleteCategory,
          LocalStorageService.deleteCategory, if_neg hk] using ih
    | addIngredient data genId uuid =>
      rcases hres : IngredientsService.addIngredient w.localData data genId
          uuid now with e | pair
      · simpa [stepWorld, hres] using ih
      · refine ⟨uuid, now, ?_⟩
        simp only [stepWorld, hres]
        unfold IngredientsService.addIngredient at hres
        split at hres
        · cases hres
        · rw [Except.ok.injEq] at hres
          obtain ⟨i2, d2⟩ := pair
          rw [Prod.mk.injEq] at hres
          obtain ⟨hi, hd⟩ := hres
          subst hd
          rfl
    | updateIngredient data uuid =>
      rcases hres : IngredientsService.updateIngredient w.localData data uuid
          now with e | pair
      · simpa [stepWorld, hres] using ih
      · refine ⟨uuid, now, ?_⟩
        simp only [stepWorld, hres]
        obtain ⟨i2, d2⟩ := pair
        have hshape : d2 =
            LocalStorageService.updateIngredient w.localData i2 uuid now := by
          unfold IngredientsService.updateIngredient at hres
          repeat' split at hres
          all_goals first
            | (rw [Except.ok.injEq, Prod.mk.injEq] at hres
               obtain ⟨hi, hdd⟩ := hres
               subst hi
               exact hdd.symm)
            | cases hres
        rw [hshape]
        rfl
    | deleteIngredient ingredientId uuid =>
      by_cases hk : w.localData.ingredients.hasKey ingredientId
      · refine ⟨uuid, now, ?_⟩
        simp only [stepWorld, IngredientsService.deleteIngredient,
          LocalStorageService.deleteIngredient, if_pos hk]
        rfl
      · simpa [stepWorld, IngredientsService.deleteIngredient,
          LocalStorageService.deleteIngredient, if_neg hk] using ih
    | push outcome nowSync =>
      cases outcome with
      | ok =>
        exact ⟨uuidEx, 0,
          (recalc_eq_nil_of_baseline_eq _ rfl rfl uuidEx 0).symm⟩
      | remoteFail e => simpa [stepWorld, saveToGoogleDrive,
          saveRegistryToGoogleDrive] using ih
    | pull outcome =>
      cases outcome with
      | found registry =>
        exact ⟨uuidEx, 0,
          (recalc_eq_nil_of_baseline_eq _ rfl rfl uuidEx 0).symm⟩
      | notFound save =>
        cases save with
        | ok =>
          exact ⟨uuidEx, 0,
            (recalc_eq_nil_of_baseline_eq _ rfl rfl uuidEx 0).symm⟩
        | remoteFail e =>
          exact ⟨uuidEx, 0,
            (recalc_eq_nil_of_baseline_eq _ rfl rfl uuidEx 0).symm⟩
      | failure e =>
        exact ⟨uuidEx, 0,
          (recalc_eq_nil_of_baseline_eq _ rfl rfl uuidEx 0).symm⟩

/-- Witness for C1 at the reachable state produced by one `addCategory`
call on a fresh client. -/
theorem pendingChanges_always_recomputed_witness :
    ∃ uuid now, invariantW1.localData.pendingChanges =
      recalculatePendingChanges invariantW1.localData uuid now :=
  pendingChanges_always_recomputed invariantW1
    (Reachable.step { localData := defaultLocalData 0, remote := none }
      (Action.addCategory
        { id := none, name := "Vegetables", description := none,
          color := none, icon := none } "c1" uuidEx) 1
      (Reachable.init 0 none) trivial)

/-- C3: on maps with unique keys (as JS objects are) whose values carry
their key as entity id, the recomputed change list is the per-kind spec
diff — ingredient changes concatenated with category changes, each kind
being its create/update pass in current insertion order followed by its
delete pass — and for every id the entries concerning that id are exactly
the spec classification: one create with the current value for a
current-only id, one update with the current value for an id whose two
values differ, one delete with the baseline value for a baseline-only id,
and nothing otherwise. -/
theorem recalculatePendingChanges_classifies (d : LocalData)
    (hnd1 : d.ingredients.keys.Nodup)
    (hnd2 : d.baselineIngredients.keys.Nodup)
    (hnd3 : d.categories.keys.Nodup)
    (hnd4 : d.baselineCategories.keys.Nodup)
    (hc1 : RecordMap.Coherent Ingredient.id d.ingredients)
    (hc2 : RecordMap.Coherent Ingredient.id d.baselineIngredients)
    (hc3 : RecordMap.Coherent IngredientCategory.id d.categories)
    (hc4 : RecordMap.Coherent IngredientCategory.id d.baselineCategories) :
    (recalcData d =
      ((diffCreatesUpdates d.ingredients d.baselineIngredients ++
        diffDeletes d.ingredients d.baselineIngredients).map fun c =>
        ⟨ChangeType.ingredient, c.1, EntityData.ing c.2⟩) ++
      (diffCreatesUpdates d.categories d.baselineCategories ++
        diffDeletes d.categories d.baselineCategories).map fun c =>
        ⟨ChangeType.category, c.1, EntityData.cat c.2⟩) ∧
    (∀ k, (kindChanges d.ingredients d.baselineIngredients).filter
        (fun c => decide (c.2.id = k)) =
      classifyId d.ingredients d.baselineIngredients k) ∧
    (∀ k, (kindChanges d.categories d.baselineCategories).filter
        (fun c => decide (c.2.id = k)) =
      classifyId d.categories d.baselineCategories k) := by
  refine ⟨?_, fun k => ?_, fun k => ?_⟩
  · unfold recalcData
    rw [kindChanges_eq_diff _ _ hnd1 hnd2, kindChanges_eq_diff _ _ hnd3 hnd4]
  · exact kindChanges_filter_key Ingredient.id _ _ hnd1 hnd2 hc1 hc2 k
  · exact kindChanges_filter_key IngredientCategory.id _ _ hnd3 hnd4 hc3 hc4 k

/-- Witness for C3 on a state containing one change of every kind: the full
decomposition, plus the classification of the deleted ingredient i2 and of
the created category c2. -/
theorem recalculatePendingChanges_classifies_witness :
    (recalcData classifyExState =
      ((diffCreatesUpdates classifyExState.ingredients
          classifyExState.baselineIngredients ++
        diffDeletes classifyExState.ingredients
          classifyExState.baselineIngredients).map fun c =>
        ⟨ChangeType.ingredient, c.1, EntityData.ing c.2⟩) ++
      (diffCreatesUpdates classifyExState.categories
          classifyExState.baselineCategories ++
        diffDeletes classifyExState.categories
          classifyExState.baselineCategories).map fun c =>
        ⟨ChangeType.category, c.1, EntityData.cat c.2⟩) ∧
    (kindChanges classifyExState.ingredients
        classifyExState.baselineIngredients).filter
      (fun c => decide (c.2.id = "i2")) =
      classifyId classifyExState.ingredients
        classifyExState.baselineIngredients "i2" ∧
    (kindChanges classifyExState.categories
        classifyExState.baselineCategories).filter
      (fun c => decide (c.2.id = "c2")) =
      classifyId classifyExState.categories
        classifyExState.baselineCategories "c2" :=
  ⟨(recalculatePendingChanges_classifies classifyExState (by decide)
      (by decide) (by decide) (by decide) (by decide) (by decide) (by decide)
      (by decide)).1,
   (recalculatePendingChanges_classifies classifyExState (by decide)
      (by decide) (by decide) (by decide) (by decide) (by decide) (by decide)
      (by decide)).2.1 "i2",
   (recalculatePendingChanges_classifies classifyExState (by decide)
      (by decide) (by decide) (by decide) (by decide) (by decide) (by decide)
      (by decide)).2.2 "c2"⟩

end Recettier
